import Mathlib

/-!
Verification of the smartpasta clipboard-history daemon.

The development shallowly embeds the Go sources:
  * `internal/history/history.go`  — the bounded MRU history store;
  * `internal/ipc/server.go`       — the command server (select / dump paths);
  * `internal/clipboard/clipboard.go` and the earlier xfixes-based revision of
    the same file — the selection protocol engine's `handleSelectionRequest`.

Machine integers (Go `int64`) are modelled as `Int` with explicit two's
complement wrap-around where they are incremented.  X11 side effects of the
request handler are modelled as an explicit trace of emitted protocol actions.
-/

namespace Smartpasta

/-- Two's complement wrap-around of a Go `int64` value into `[-2^63, 2^63)`. -/
def wrap64 (x : Int) : Int := (x + 2 ^ 63) % 2 ^ 64 - 2 ^ 63

/-- Go `history.Entry`: `ID int64`, `Content string`, `CreatedAt time.Time`
(the timestamp is modelled as an abstract `Nat` clock value). -/
structure Entry where
  id : Int
  content : String
  createdAt : Nat
deriving DecidableEq, Repr, Inhabited

/-- Go `history.History`: the entry sequence (MRU first), the entry-count bound
`max`, the per-entry byte bound `maxBytes`, and the id counter `nextID`.
The Go `sync.Mutex` serialises access and has no sequential content. -/
structure History where
  entries : List Entry
  max : Int
  maxBytes : Int
  nextID : Int
deriving DecidableEq, Repr

/-- Go `history.DefaultMaxEntries = 20`. -/
def DefaultMaxEntries : Int := 20

/-- Go `history.DefaultMaxBytes = 1 << 20`. -/
def DefaultMaxBytes : Int := 2 ^ 20

/-- Go `history.New`: non-positive bounds are replaced by the defaults; the store
starts with no entries and `nextID = 1`. -/
def History.New (maxEntries : Int) (maxBytes : Int) : History :=
  { entries := []
    max := if maxEntries ≤ 0 then DefaultMaxEntries else maxEntries
    maxBytes := if maxBytes ≤ 0 then DefaultMaxBytes else maxBytes
    nextID := 1 }

/-- The zero `Entry{}` value returned by `Add` on rejection. -/
def zeroEntry : Entry := ⟨0, "", 0⟩

/-- Go `(*History).Add`.  Go's `len(content)` is the UTF-8 byte length.  The
front-duplicate test is `len(h.entries) > 0 && h.entries[0].Content == content`.
On admission the new entry is prepended and the tail truncated to `max`
(`h.entries = h.entries[:h.max]` when the bound is exceeded).  `time.Now()` is
the explicit `now` argument. -/
def History.Add (h : History) (content : String) (now : Nat) :
    Entry × Bool × History :=
  if content = "" then (zeroEntry, false, h)
  else if (content.utf8ByteSize : Int) > h.maxBytes then (zeroEntry, false, h)
  else if h.entries.head?.map Entry.content = some content then (zeroEntry, false, h)
  else
    let entry : Entry := ⟨h.nextID, content, now⟩
    let grown := entry :: h.entries
    let pruned :=
      if (grown.length : Int) > h.max then grown.take h.max.toNat else grown
    (entry, true, { h with entries := pruned, nextID := wrap64 (h.nextID + 1) })

/-- Go `(*History).ListMRU`: a defensive copy of the MRU-ordered sequence. -/
def History.ListMRU (h : History) : List Entry := h.entries

/-- Go `(*History).ListChronological`: the loop `entries[len-1-i] = h.entries[i]`
produces exactly the reversal of the MRU sequence (oldest first). -/
def History.ListChronological (h : History) : List Entry := h.entries.reverse

/-- The search loop of `(*History).Select`: first entry whose id matches,
together with the remaining entries in order.  The Go splice
`append([]Entry{entry}, append(h.entries[:i], h.entries[i+1:]...)...)`
removes position `i` and re-prepends the hit, which is `hit :: rest`. -/
def selectLoop (id : Int) : List Entry → Option (Entry × List Entry)
  | [] => none
  | e :: rest =>
    if e.id = id then some (e, rest)
    else (selectLoop id rest).map (fun p => (p.1, e :: p.2))

/-- Go `(*History).Select`: `none` models `ErrNotFound` (state untouched);
on a hit the entry moves to the front (a hit at position 0 returns the list
unchanged, which coincides with re-prepending it). -/
def History.Select (h : History) (id : Int) : Option Entry × History :=
  match selectLoop id h.entries with
  | none => (none, h)
  | some (e, others) => (some e, { h with entries := e :: others })

/-- The search loop of `(*History).Delete`: drops the first entry whose id
matches, `none` when no entry matches. -/
def deleteLoop (id : Int) : List Entry → Option (List Entry)
  | [] => none
  | e :: rest =>
    if e.id = id then some rest
    else (deleteLoop id rest).map (e :: ·)

/-- Go `(*History).Delete`: `false` models `ErrNotFound`. -/
def History.Delete (h : History) (id : Int) : Bool × History :=
  match deleteLoop id h.entries with
  | none => (false, h)
  | some rest => (true, { h with entries := rest })

/-- Go `(*History).Clear`: `h.entries = nil`; the id counter is not touched. -/
def History.Clear (h : History) : History := { h with entries := [] }

/-- One call in a sequence of store mutations (`Add` / `Delete` / `Clear`). -/
inductive HOp where
  | add (content : String) (now : Nat)
  | delete (id : Int)
  | clear
deriving DecidableEq, Repr

/-- The state reached by one store operation. -/
def History.step (h : History) : HOp → History
  | .add c now => (h.Add c now).2.2
  | .delete id => (h.Delete id).2
  | .clear => h.Clear

/-- The state reached by a sequence of store operations. -/
def History.runOps (h : History) (ops : List HOp) : History :=
  ops.foldl History.step h

/-- The ids handed out to successfully admitted entries along a sequence of
store operations, in call order. -/
def History.assignedIds (h : History) : List HOp → List Int
  | [] => []
  | .add c now :: rest =>
    let r := h.Add c now
    if r.2.1 then r.1.id :: r.2.2.assignedIds rest
    else r.2.2.assignedIds rest
  | op :: rest => (h.step op).assignedIds rest

/-! ## Command server (`internal/ipc/server.go`) -/

/-- Go `ipc.Response`: the success flag, error name (`""` when absent) and
entry list (`[]` when absent) of one reply on the command channel. -/
structure Response where
  ok : Bool
  error : String
  entries : List Entry
deriving DecidableEq, Repr

/-- The `"select"` arm of `(*Server).handleRequest`: `history.Select` runs
first; only then is the re-publish callback (`s.setClipboard`) attempted.
`setClipboard = none` models a nil callback, `some ok` a callback whose
`SetClipboard` call succeeds (`ok = true`) or fails (`ok = false`).
The returned state is the history store after the whole operation. -/
def handleSelect (h : History) (id : Int) (setClipboard : Option Bool) :
    Response × History :=
  match h.Select id with
  | (none, h') => ({ ok := false, error := "not found", entries := [] }, h')
  | (some _, h') =>
    match setClipboard with
    | some false => ({ ok := false, error := "clipboard error", entries := [] }, h')
    | _ => ({ ok := true, error := "", entries := [] }, h')

/-- The write loop of `ipc.dumpEntries` as the text it writes: each entry's
content verbatim, with `"\n-----\n"` written after every entry except the
last. -/
def dumpEntriesText : List Entry → String
  | [] => ""
  | [e] => e.content
  | e :: rest => e.content ++ "\n-----\n" ++ dumpEntriesText rest

/-- The `"dump"` arm of `(*Server).handleRequest` hands
`s.history.ListChronological()` to `dumpEntries`: the dump file's text. -/
def dumpFileText (h : History) : String :=
  dumpEntriesText h.ListChronological

/-! ## Selection protocol engine (`internal/clipboard/clipboard.go`)

Only the state read by `handleSelectionRequest` is embedded: the interned
atoms, the owned text `current`, and the byte bound.  X11 calls made by the
handler are recorded in an action trace; `propWriteOk` stands for the result
of the (single) `ChangePropertyChecked(...).Check()` call a branch makes. -/

/-- Constant `xproto.AtomNone`. -/
def atomNone : Nat := 0

/-- Constant `xproto.AtomAtom` (predefined X11 atom 4, used by the xfixes revision). -/
def atomAtom : Nat := 4

/-- Constant `xproto.AtomString` (predefined X11 atom 31, used by the xfixes revision). -/
def atomString : Nat := 31

/-- The atoms interned by `NewManager` that `handleSelectionRequest` reads. -/
structure Atoms where
  aCLIPBOARD : Nat
  aATOM : Nat
  aUTF8_STRING : Nat
  aTARGETS : Nat
  aTEXT : Nat
  aSTRING : Nat
  aSMARTPASTA_CLIP : Nat
deriving DecidableEq, Repr

/-- The fields of `clipboard.Manager` read by the request path. -/
structure Manager where
  atoms : Atoms
  current : String
  maxBytes : Nat
deriving DecidableEq, Repr

/-- Event `xproto.SelectionRequestEvent` (fields the handler uses). -/
structure SelectionRequestEvent where
  time : Nat
  requestor : Nat
  selection : Nat
  target : Nat
  property : Nat
deriving DecidableEq, Repr

/-- Event `xproto.SelectionNotifyEvent` as built by the handler's `sendNotify`. -/
structure SelectionNotifyEvent where
  time : Nat
  requestor : Nat
  selection : Nat
  target : Nat
  property : Nat
deriving DecidableEq, Repr

/-- One X11 call issued by `handleSelectionRequest`, in issue order:
a 32-bit-format `ChangeProperty` carrying a list of atoms (the TARGETS
answer), an 8-bit-format `ChangeProperty` carrying text bytes (the content
answer), or the `SendEvent` of a `SelectionNotify`. -/
inductive XAction where
  | changePropertyAtoms (requestor : Nat) (property : Nat) (ptype : Nat)
      (atoms : List Nat)
  | changePropertyBytes (requestor : Nat) (property : Nat) (ptype : Nat)
      (content : String)
  | sendNotify (ev : SelectionNotifyEvent)
deriving DecidableEq, Repr

/-- The `handleSelectionRequest` of `internal/clipboard/clipboard.go` (the current,
SelectionClear-based revision), as its trace of X11 calls.  `propWriteOk` is
the outcome of the `ChangeProperty` check in whichever branch performs one. -/
def handleSelectionRequest (m : Manager) (ev : SelectionRequestEvent)
    (propWriteOk : Bool) : List XAction :=
  let property := if ev.property = atomNone then m.atoms.aSMARTPASTA_CLIP
                  else ev.property
  let notify : Nat → XAction := fun prop =>
    .sendNotify ⟨ev.time, ev.requestor, ev.selection, ev.target, prop⟩
  if ev.selection ≠ m.atoms.aCLIPBOARD then
    [notify atomNone]
  else if ev.target = m.atoms.aTARGETS then
    let targets := [m.atoms.aTARGETS, m.atoms.aUTF8_STRING,
                    m.atoms.aSTRING, m.atoms.aTEXT]
    let write := XAction.changePropertyAtoms ev.requestor property
                   m.atoms.aATOM targets
    if propWriteOk then [write, notify property] else [write, notify atomNone]
  else if ev.target ≠ m.atoms.aUTF8_STRING ∧ ev.target ≠ m.atoms.aTEXT ∧
          ev.target ≠ m.atoms.aSTRING then
    [notify atomNone]
  else
    let propertyType := if ev.target = m.atoms.aTEXT then m.atoms.aUTF8_STRING
                        else ev.target
    let write := XAction.changePropertyBytes ev.requestor property
                   propertyType m.current
    if propWriteOk then [write, notify property] else [write, notify atomNone]

/-- The `handleSelectionRequest` of the earlier xfixes-based revision of the
clipboard manager: the fallback property is `ev.Target` (not a scratch atom),
there is no foreign-selection guard, the TARGETS answer lists the atoms in the
order UTF8_STRING, TEXT, STRING, TARGETS with type `AtomAtom`, and a supported
text request with empty `current` is answered with property `None` and no
property write. -/
def handleSelectionRequestXF (m : Manager) (ev : SelectionRequestEvent)
    (propWriteOk : Bool) : List XAction :=
  let property := if ev.property = atomNone then ev.target else ev.property
  let notify : Nat → XAction := fun prop =>
    .sendNotify ⟨ev.time, ev.requestor, ev.selection, ev.target, prop⟩
  if ev.target = m.atoms.aTARGETS then
    let targets := [m.atoms.aUTF8_STRING, m.atoms.aTEXT,
                    m.atoms.aSTRING, m.atoms.aTARGETS]
    let write := XAction.changePropertyAtoms ev.requestor property
                   atomAtom targets
    if propWriteOk then [write, notify property] else [write, notify atomNone]
  else if ev.target ≠ m.atoms.aUTF8_STRING ∧ ev.target ≠ m.atoms.aTEXT ∧
          ev.target ≠ m.atoms.aSTRING then
    [notify atomNone]
  else if m.current = "" then
    [notify atomNone]
  else
    let propertyType := if ev.target = m.atoms.aSTRING then atomString
                        else m.atoms.aUTF8_STRING
    let write := XAction.changePropertyBytes ev.requestor property
                   propertyType m.current
    if propWriteOk then [write, notify property] else [write, notify atomNone]

/-- Whether an action is the sending of a `SelectionNotify`. -/
def XAction.isNotify : XAction → Bool
  | .sendNotify _ => true
  | _ => false

/-- Whether an action writes a property into the requestor's window. -/
def XAction.isPropertyWrite : XAction → Bool
  | .changePropertyAtoms .. => true
  | .changePropertyBytes .. => true
  | .sendNotify _ => false

/-- The properties carried by the notifications of a trace, in order. -/
def notifyProps (trace : List XAction) : List Nat :=
  trace.filterMap fun a =>
    match a with
    | .sendNotify ev => some ev.property
    | _ => none

/-- Folding a list of captures through `Add` (all with clock value 0). -/
def History.runAdds (h : History) (cs : List String) : History :=
  cs.foldl (fun h c => (h.Add c 0).2.2) h

/-- The delimiter-prefixed join of the tail elements of a delimited list;
used to characterise `String.intercalate`. -/
def tailJoin (s : String) : List String → String
  | [] => ""
  | a :: as => s ++ a ++ tailJoin s as

/-- A concrete manager state with no current content (distinct interned
atoms, the default 1 MiB bound). -/
def cexManager : Manager :=
  { atoms := { aCLIPBOARD := 1, aATOM := 2, aUTF8_STRING := 3, aTARGETS := 4,
               aTEXT := 5, aSTRING := 6, aSMARTPASTA_CLIP := 7 }
    current := ""
    maxBytes := 1048576 }

/-- A concrete `SelectionRequest` for the CLIPBOARD selection with the
supported target `UTF8_STRING` and a designated requestor property. -/
def cexEvent : SelectionRequestEvent :=
  { time := 0, requestor := 42, selection := 1, target := 3, property := 9 }

/-! ## Theorems -/

/-- C1: every handled `SelectionRequest` — foreign selection, TARGETS request,
supported or unsupported text target, empty or non-empty `current`, successful
or failed property write — emits exactly one `SelectionNotify`, in both
revisions of the handler. -/
theorem handleSelectionRequest_exactly_one_notify
    (m : Manager) (ev : SelectionRequestEvent) (propWriteOk : Bool) :
    (handleSelectionRequest m ev propWriteOk).countP XAction.isNotify = 1 ∧
    (handleSelectionRequestXF m ev propWriteOk).countP XAction.isNotify = 1 := by
  constructor
  · unfold handleSelectionRequest
    split_ifs <;> rfl
  · unfold handleSelectionRequestXF
    split_ifs <;> rfl

/-- C9: `New` substitutes the defaults (20 entries, `2^20` bytes) for
non-positive bounds, keeps positive bounds, and returns an empty store whose
next id is 1. -/
theorem new_defaults (a b : Int) :
    ((a ≤ 0 → (History.New a b).max = 20) ∧
      (0 < a → (History.New a b).max = a)) ∧
    ((b ≤ 0 → (History.New a b).maxBytes = 2 ^ 20) ∧
      (0 < b → (History.New a b).maxBytes = b)) ∧
    (History.New a b).entries = [] ∧ (History.New a b).nextID = 1 := by
  refine ⟨⟨fun ha => ?_, fun ha => ?_⟩, ⟨fun hb => ?_, fun hb => ?_⟩, rfl, rfl⟩
  · simp [History.New, DefaultMaxEntries, if_pos ha]
  · simp [History.New, if_neg (not_le.mpr ha)]
  · simp [History.New, DefaultMaxBytes, if_pos hb]
  · simp [History.New, if_neg (not_le.mpr hb)]

/-- Witness for C9 at concrete bounds. -/
theorem new_defaults_witness :
    (History.New 0 (-3)).max = 20 ∧ (History.New 0 (-3)).maxBytes = 2 ^ 20 ∧
    (History.New 7 5).max = 7 ∧ (History.New 7 5).maxBytes = 5 :=
  ⟨(new_defaults 0 (-3)).1.1 (by decide), (new_defaults 0 (-3)).2.1.1 (by decide),
   (new_defaults 7 5).1.2 (by decide), (new_defaults 7 5).2.1.2 (by decide)⟩

/-- C3: `Add` answers `admitted = false` with the store untouched exactly when
the content is empty, its byte length exceeds `maxBytes`, or it equals the
front entry's content; content of byte length exactly `maxBytes` passing the
other checks is admitted. -/
theorem add_rejects_iff (h : History) (c : String) (now : Nat) :
    (((h.Add c now).2.1 = false ∧ (h.Add c now).2.2 = h) ↔
      (c = "" ∨ (c.utf8ByteSize : Int) > h.maxBytes ∨
        h.entries.head?.map Entry.content = some c)) ∧
    (((c.utf8ByteSize : Int) = h.maxBytes ∧ c ≠ "" ∧
        h.entries.head?.map Entry.content ≠ some c) →
      (h.Add c now).2.1 = true) := by
  unfold History.Add
  split_ifs with h1 h2 h3
  · exact ⟨by simp [h1], fun hx => absurd h1 hx.2.1⟩
  · exact ⟨by simp [h2], fun hx => absurd h2 (by rw [hx.1]; exact lt_irrefl _)⟩
  · exact ⟨by simp [h3], fun hx => absurd h3 hx.2.2⟩
  · refine ⟨?_, fun _ => rfl⟩
    simp only [show (false = false ∧ _) ↔ _ from Iff.rfl]
    constructor
    · intro hx
      exact absurd hx.1 (by simp)
    · intro hx
      rcases hx with hx | hx | hx
      · exact absurd hx h1
      · exact absurd hx h2
      · exact absurd hx h3

/-- C2 counterexample: on a supported-format request with no current content
(`current = ""`, target `UTF8_STRING`, write succeeding), the current
`handleSelectionRequest` does NOT reply with property `None` and no property
write: it writes an (empty) property into the requestor's window and replies
with that property. -/
theorem no_content_request_counterexample :
    ¬ (notifyProps (handleSelectionRequest cexManager cexEvent true) =
         [atomNone] ∧
       (handleSelectionRequest cexManager cexEvent true).countP
         XAction.isPropertyWrite = 0) := by decide

/-- C2 amended: (a) an unsupported target on the CLIPBOARD selection is
answered with property `None` and no property write; (b) a supported text
target whose property write succeeds is answered by writing `current` — even
when it is empty — into the designated (or fallback) property and replying
with that property; (c) the earlier xfixes revision answers a supported text
target with property `None` and no write when `current` is empty. -/
theorem unsupported_or_no_content_reply
    (m : Manager) (ev : SelectionRequestEvent) (propWriteOk : Bool) :
    (ev.selection = m.atoms.aCLIPBOARD → ev.target ≠ m.atoms.aTARGETS →
     ev.target ≠ m.atoms.aUTF8_STRING → ev.target ≠ m.atoms.aTEXT →
     ev.target ≠ m.atoms.aSTRING →
      handleSelectionRequest m ev propWriteOk =
        [.sendNotify ⟨ev.time, ev.requestor, ev.selection, ev.target, atomNone⟩]) ∧
    (ev.selection = m.atoms.aCLIPBOARD → ev.target ≠ m.atoms.aTARGETS →
     (ev.target = m.atoms.aUTF8_STRING ∨ ev.target = m.atoms.aTEXT ∨
       ev.target = m.atoms.aSTRING) →
      notifyProps (handleSelectionRequest m ev true) =
        [if ev.property = atomNone then m.atoms.aSMARTPASTA_CLIP
         else ev.property] ∧
      (handleSelectionRequest m ev true).countP XAction.isPropertyWrite = 1) ∧
    (ev.target ≠ m.atoms.aTARGETS →
     (ev.target = m.atoms.aUTF8_STRING ∨ ev.target = m.atoms.aTEXT ∨
       ev.target = m.atoms.aSTRING) →
     m.current = "" →
      handleSelectionRequestXF m ev propWriteOk =
        [.sendNotify ⟨ev.time, ev.requestor, ev.selection, ev.target, atomNone⟩]) := by
  refine ⟨fun hsel hT hu ht hs => ?_, fun hsel hT hsup => ?_,
          fun hT hsup hcur => ?_⟩
  · unfold handleSelectionRequest
    rw [if_neg (fun hne => hne hsel), if_neg hT, if_pos ⟨hu, ht, hs⟩]
  · unfold handleSelectionRequest
    rw [if_neg (fun hne => hne hsel), if_neg hT,
        if_neg (fun hx => by rcases hsup with h | h | h
                             exacts [hx.1 h, hx.2.1 h, hx.2.2 h])]
    simp [notifyProps, XAction.isPropertyWrite]
  · unfold handleSelectionRequestXF
    rw [if_neg hT,
        if_neg (fun hx => by rcases hsup with h | h | h
                             exacts [hx.1 h, hx.2.1 h, hx.2.2 h]),
        if_pos hcur]

/-- Witness for the amended C2 at concrete inputs: an unsupported target
(atom 8) is answered `None` without a write; the supported target with empty
content is answered with the designated property 9 after one write; the
xfixes revision answers the same supported request with `None`. -/
theorem unsupported_or_no_content_reply_witness :
    (handleSelectionRequest cexManager { cexEvent with target := 8 } true =
      [.sendNotify ⟨0, 42, 1, 8, atomNone⟩]) ∧
    (notifyProps (handleSelectionRequest cexManager cexEvent true) = [9] ∧
      (handleSelectionRequest cexManager cexEvent true).countP
        XAction.isPropertyWrite = 1) ∧
    (handleSelectionRequestXF cexManager cexEvent true =
      [.sendNotify ⟨0, 42, 1, 3, atomNone⟩]) :=
  ⟨(unsupported_or_no_content_reply cexManager { cexEvent with target := 8 }
      true).1 (by decide) (by decide) (by decide) (by decide) (by decide),
   by
    have h := (unsupported_or_no_content_reply cexManager cexEvent true).2.1
      (by decide) (by decide) (Or.inl (by decide))
    simpa using h,
   (unsupported_or_no_content_reply cexManager cexEvent true).2.2
    (by decide) (Or.inl (by decide)) (by decide)⟩

/-- Witness for C3: content of byte length exactly `maxBytes` (3) is admitted;
empty content is rejected with the store untouched. -/
theorem add_rejects_iff_witness :
    ((History.New 2 3).Add "abc" 0).2.1 = true ∧
    ((History.New 2 3).Add "" 0).2.1 = false ∧
    ((History.New 2 3).Add "" 0).2.2 = History.New 2 3 :=
  ⟨(add_rejects_iff (History.New 2 3) "abc" 0).2
    ⟨by decide, by decide, by decide⟩,
   ((add_rejects_iff (History.New 2 3) "" 0).1.mpr (Or.inl rfl)).1,
   ((add_rejects_iff (History.New 2 3) "" 0).1.mpr (Or.inl rfl)).2⟩

/-- The `Select` search loop misses exactly when no entry has the id. -/
theorem selectLoop_eq_none (id : Int) (l : List Entry)
    (hnone : ∀ e ∈ l, e.id ≠ id) : selectLoop id l = none := by
  induction l with
  | nil => rfl
  | cons e rest ih =>
    unfold selectLoop
    rw [if_neg (hnone e (List.mem_cons_self e rest)),
        ih (fun e' he' => hnone e' (List.mem_cons_of_mem e he'))]
    rfl

/-- The `Select` search loop finds the first entry with the id and removes it,
leaving all other entries in their relative order. -/
theorem selectLoop_found (id : Int) (pre : List Entry) (e : Entry)
    (post : List Entry) (hpre : ∀ e' ∈ pre, e'.id ≠ id) (he : e.id = id) :
    selectLoop id (pre ++ e :: post) = some (e, pre ++ post) := by
  induction pre with
  | nil => simp [selectLoop, he]
  | cons p rest ih =>
    rw [List.cons_append]
    show (if p.id = id then some (p, rest ++ e :: post)
          else (selectLoop id (rest ++ e :: post)).map
            (fun q => (q.1, p :: q.2))) = _
    rw [if_neg (hpre p (List.mem_cons_self p rest)),
        ih (fun e' he' => hpre e' (List.mem_cons_of_mem p he'))]
    rfl

/-- C6: `Select` promotes a non-front hit to the front preserving the order of
the other entries, leaves the sequence unchanged on a front hit, and fails
with the store untouched when no entry has the id; every hit returns the
matching entry. -/
theorem select_spec (h : History) (id : Int) :
    (∀ pre e post, h.entries = pre ++ e :: post → e.id = id →
      (∀ e' ∈ pre, e'.id ≠ id) →
      h.Select id = (some e, { h with entries := e :: (pre ++ post) })) ∧
    (∀ e rest, h.entries = e :: rest → e.id = id →
      h.Select id = (some e, h)) ∧
    ((∀ e ∈ h.entries, e.id ≠ id) → h.Select id = (none, h)) := by
  refine ⟨fun pre e post hsplit he hpre => ?_, fun e rest hfront he => ?_,
          fun hnone => ?_⟩
  · unfold History.Select
    rw [hsplit, selectLoop_found id pre e post hpre he]
  · unfold History.Select
    rw [hfront, show selectLoop id (e :: rest) = some (e, rest) by
          unfold selectLoop; rw [if_pos he]]
    have heq : ({ h with entries := e :: rest } : History) = h := by
      cases h with
      | mk entries max maxBytes nextID => simp_all
    show (some e, ({ h with entries := e :: rest } : History)) = (some e, h)
    rw [heq]
  · unfold History.Select
    rw [selectLoop_eq_none id h.entries hnone]

/-- Witness for C6 on the spec's scenario: MRU ids `[3,2,1]`; `Select 1`
yields `[1,3,2]`, `Select 3` is a no-op, `Select 99` fails. -/
theorem select_spec_witness :
    (History.mk [⟨3, "c", 0⟩, ⟨2, "b", 0⟩, ⟨1, "a", 0⟩] 20 100 4).Select 1 =
      (some ⟨1, "a", 0⟩,
        History.mk [⟨1, "a", 0⟩, ⟨3, "c", 0⟩, ⟨2, "b", 0⟩] 20 100 4) ∧
    (History.mk [⟨3, "c", 0⟩, ⟨2, "b", 0⟩, ⟨1, "a", 0⟩] 20 100 4).Select 3 =
      (some ⟨3, "c", 0⟩,
        History.mk [⟨3, "c", 0⟩, ⟨2, "b", 0⟩, ⟨1, "a", 0⟩] 20 100 4) ∧
    (History.mk [⟨3, "c", 0⟩, ⟨2, "b", 0⟩, ⟨1, "a", 0⟩] 20 100 4).Select 99 =
      (none, History.mk [⟨3, "c", 0⟩, ⟨2, "b", 0⟩, ⟨1, "a", 0⟩] 20 100 4) :=
  ⟨(select_spec (History.mk [⟨3, "c", 0⟩, ⟨2, "b", 0⟩, ⟨1, "a", 0⟩] 20 100 4)
      1).1 [⟨3, "c", 0⟩, ⟨2, "b", 0⟩] ⟨1, "a", 0⟩ [] rfl rfl (by decide),
   (select_spec (History.mk [⟨3, "c", 0⟩, ⟨2, "b", 0⟩, ⟨1, "a", 0⟩] 20 100 4)
      3).2.1 ⟨3, "c", 0⟩ [⟨2, "b", 0⟩, ⟨1, "a", 0⟩] rfl rfl,
   (select_spec (History.mk [⟨3, "c", 0⟩, ⟨2, "b", 0⟩, ⟨1, "a", 0⟩] 20 100 4)
      99).2.2 (by decide)⟩

/-- A `Select` hit leaves the matching entry at the front of the store. -/
theorem select_hit_head (h : History) (id : Int) (e : Entry) (h' : History)
    (hsel : h.Select id = (some e, h')) : h'.entries.head? = some e := by
  unfold History.Select at hsel
  cases hloop : selectLoop id h.entries with
  | none => rw [hloop] at hsel; exact absurd (congrArg Prod.fst hsel) (by simp)
  | some p =>
    rw [hloop] at hsel
    have h1 : some p.1 = some e := congrArg Prod.fst hsel
    have h2 : { h with entries := p.1 :: p.2 } = h' := congrArg Prod.snd hsel
    rw [← h2]
    simpa using h1

/-- C10: the command server's `select` promotes in the history store first and
only then attempts the clipboard re-publish; when the re-publish fails the
response is the `clipboard error` failure and the promotion stands — the
selected entry is already at the front of the history. -/
theorem select_promotion_not_rolled_back (h : History) (id : Int) :
    (∀ e h', h.Select id = (some e, h') →
      handleSelect h id (some false) =
        ({ ok := false, error := "clipboard error", entries := [] }, h') ∧
      h'.entries.head? = some e) ∧
    (h.Select id = (none, h) →
      handleSelect h id (some false) =
        ({ ok := false, error := "not found", entries := [] }, h)) := by
  refine ⟨fun e h' hsel => ⟨?_, select_hit_head h id e h' hsel⟩,
          fun hsel => ?_⟩
  · unfold handleSelect
    rw [hsel]
  · unfold handleSelect
    rw [hsel]

/-- Witness for C10: selecting id 1 with a failing re-publish reports the
clipboard error while the entry is already promoted to the front. -/
theorem select_promotion_not_rolled_back_witness :
    handleSelect (History.mk [⟨3, "c", 0⟩, ⟨1, "a", 0⟩] 20 100 4) 1
        (some false) =
      ({ ok := false, error := "clipboard error", entries := [] },
        History.mk [⟨1, "a", 0⟩, ⟨3, "c", 0⟩] 20 100 4) ∧
    (History.mk [⟨1, "a", 0⟩, ⟨3, "c", 0⟩] 20 100 4).entries.head? =
      some ⟨1, "a", 0⟩ :=
  (select_promotion_not_rolled_back
    (History.mk [⟨3, "c", 0⟩, ⟨1, "a", 0⟩] 20 100 4) 1).1
    ⟨1, "a", 0⟩ (History.mk [⟨1, "a", 0⟩, ⟨3, "c", 0⟩] 20 100 4) (by decide)

/-- The accumulator loop of `String.intercalate` appends the
delimiter-prefixed join of the remaining elements. -/
theorem intercalate_go_eq (s : String) : ∀ (l : List String) (acc : String),
    String.intercalate.go acc s l = acc ++ tailJoin s l := by
  intro l
  induction l with
  | nil =>
    intro acc
    show acc = acc ++ tailJoin s []
    rw [show tailJoin s [] = "" from rfl, String.append_empty]
  | cons a as ih =>
    intro acc
    show String.intercalate.go (acc ++ s ++ a) s as = _
    rw [ih (acc ++ s ++ a),
        show tailJoin s (a :: as) = s ++ a ++ tailJoin s as from rfl]
    simp [String.append_assoc]

/-- The dump write loop produces the delimiter-interspersed join of the entry
contents: no delimiter before the first entry, one between each consecutive
pair, none after the last. -/
theorem dumpEntriesText_eq_intercalate : ∀ l : List Entry,
    dumpEntriesText l = String.intercalate "\n-----\n" (l.map Entry.content) := by
  intro l
  induction l with
  | nil => rfl
  | cons e rest ih =>
    cases rest with
    | nil =>
      show e.content = String.intercalate.go e.content "\n-----\n" []
      rw [intercalate_go_eq, show tailJoin "\n-----\n" [] = "" from rfl,
          String.append_empty]
    | cons f rs =>
      show e.content ++ "\n-----\n" ++ dumpEntriesText (f :: rs) =
        String.intercalate.go e.content "\n-----\n"
          (f.content :: rs.map Entry.content)
      rw [ih, intercalate_go_eq,
          show String.intercalate "\n-----\n"
              ((f :: rs).map Entry.content) =
            String.intercalate.go f.content "\n-----\n"
              (rs.map Entry.content) from rfl,
          intercalate_go_eq,
          show tailJoin "\n-----\n" (f.content :: rs.map Entry.content) =
            "\n-----\n" ++ f.content ++
              tailJoin "\n-----\n" (rs.map Entry.content) from rfl]
      simp [String.append_assoc]

/-- C8: the dump file is the store's entries oldest-first, each content
verbatim, consecutive entries separated by the delimiter line with no
trailing delimiter; a one-entry store dumps exactly its content, an empty
store dumps nothing. -/
theorem dump_oldest_first_delimited (h : History) :
    dumpFileText h =
      String.intercalate "\n-----\n" (h.ListChronological.map Entry.content) ∧
    (h.entries = [] → dumpFileText h = "") ∧
    (∀ e, h.entries = [e] → dumpFileText h = e.content) := by
  refine ⟨dumpEntriesText_eq_intercalate _, fun hemp => ?_, fun e hone => ?_⟩
  · unfold dumpFileText History.ListChronological
    rw [hemp]
    rfl
  · unfold dumpFileText History.ListChronological
    rw [hone]
    rfl

/-- Witness for C8: a two-entry store (MRU `["b","a"]`) dumps
`"a\n-----\nb"`; the empty store dumps `""`; a single-entry store dumps its
content with no delimiter. -/
theorem dump_oldest_first_delimited_witness :
    dumpFileText (History.mk [⟨2, "b", 0⟩, ⟨1, "a", 0⟩] 20 100 3) =
      "a\n-----\nb" ∧
    dumpFileText (History.mk [] 20 100 1) = "" ∧
    dumpFileText (History.mk [⟨1, "token123", 0⟩] 20 100 2) = "token123" :=
  ⟨by
    have e := (dump_oldest_first_delimited
      (History.mk [⟨2, "b", 0⟩, ⟨1, "a", 0⟩] 20 100 3)).1
    rw [e]; rfl,
   (dump_oldest_first_delimited (History.mk [] 20 100 1)).2.1 rfl,
   (dump_oldest_first_delimited
     (History.mk [⟨1, "token123", 0⟩] 20 100 2)).2.2 ⟨1, "token123", 0⟩ rfl⟩

/-- The admitted branch of `Add` in explicit form. -/
theorem add_admitted_eq (h : History) (c : String) (now : Nat)
    (hc : c ≠ "") (hb : ¬ ((c.utf8ByteSize : Int) > h.maxBytes))
    (hf : ¬ (h.entries.head?.map Entry.content = some c)) :
    h.Add c now = (⟨h.nextID, c, now⟩, true,
      { h with
        entries :=
          if ((((⟨h.nextID, c, now⟩ : Entry) :: h.entries).length : Int) >
              h.max)
          then ((⟨h.nextID, c, now⟩ : Entry) :: h.entries).take h.max.toNat
          else (⟨h.nextID, c, now⟩ : Entry) :: h.entries
        nextID := wrap64 (h.nextID + 1) }) := by
  unfold History.Add
  rw [if_neg hc, if_neg hb, if_neg hf]

/-- An admitted `Add` that stays within the bound prepends the new entry and
keeps the configured bounds. -/
theorem add_step (h : History) (c : String) (now : Nat)
    (hc : c ≠ "") (hb : (c.utf8ByteSize : Int) ≤ h.maxBytes)
    (hf : h.entries.head?.map Entry.content ≠ some c)
    (hlen : (h.entries.length : Int) + 1 ≤ h.max) :
    (h.Add c now).2.2.entries = ⟨h.nextID, c, now⟩ :: h.entries ∧
    (h.Add c now).2.2.max = h.max ∧
    (h.Add c now).2.2.maxBytes = h.maxBytes := by
  rw [add_admitted_eq h c now hc (not_lt.mpr hb) hf]
  refine ⟨?_, rfl, rfl⟩
  show (if _ then _ else _) = _
  rw [if_neg (by simp only [List.length_cons]; push_cast; omega)]

/-- An `Add` whose content equals the front entry's content is a silent no-op. -/
theorem add_front_dup (h : History) (c : String) (now : Nat)
    (hf : h.entries.head?.map Entry.content = some c) :
    (h.Add c now).2.2 = h :=
  ((add_rejects_iff h c now).1.mpr (Or.inr (Or.inr hf))).2

/-- C4 counterexample: from the empty default-bounded store,
`Add "a"; Add "b"; Add "a"` leaves three stored entries, not two — the
non-adjacent duplicate is admitted alongside the two other entries. -/
theorem dedup_nonadjacent_counterexample :
    ¬ (((((History.New 20 1024).Add "a" 0).2.2.Add "b" 0).2.2.Add
          "a" 0).2.2.entries.length = 2) := by decide

/-- C4 amended: from an empty store with `x ≠ y` both admissible,
`Add x; Add x` yields exactly one stored entry, and (when `maxEntries ≥ 3`)
`Add x; Add y; Add x` yields three stored entries whose contents are
`[x, y, x]` in MRU order — both non-adjacent duplicates of `x` are kept. -/
theorem dedup_amended (h : History) (x y : String) (n1 n2 n3 : Nat)
    (hemp : h.entries = []) (hmax : 0 < h.max)
    (hx : x ≠ "") (hy : y ≠ "")
    (hxb : (x.utf8ByteSize : Int) ≤ h.maxBytes)
    (hyb : (y.utf8ByteSize : Int) ≤ h.maxBytes)
    (hxy : x ≠ y) :
    ((h.Add x n1).2.2.Add x n2).2.2.entries.length = 1 ∧
    (3 ≤ h.max →
      ((((h.Add x n1).2.2.Add y n2).2.2.Add x n3).2.2.entries.length = 3 ∧
        (((h.Add x n1).2.2.Add y n2).2.2.Add x n3).2.2.entries.map
          Entry.content = [x, y, x])) := by
  obtain ⟨h1e, h1m, h1b⟩ :=
    add_step h x n1 hx hxb (by rw [hemp]; simp) (by rw [hemp]; simp; omega)
  constructor
  · rw [add_front_dup _ x n2 (by rw [h1e]; rfl), h1e, hemp]
    rfl
  · intro h3max
    obtain ⟨h2e, h2m, h2b⟩ := add_step (h.Add x n1).2.2 y n2 hy
      (by rw [h1b]; exact hyb)
      (by rw [h1e]; simpa using hxy)
      (by rw [h1e, h1m, hemp]; simp; omega)
    obtain ⟨h3e, h3m, h3b⟩ := add_step ((h.Add x n1).2.2.Add y n2).2.2 x n3 hx
      (by rw [h2b, h1b]; exact hxb)
      (by rw [h2e]; simpa using Ne.symm hxy)
      (by rw [h2e, h1e, h2m, h1m, hemp]; simp; omega)
    rw [h3e, h2e, h1e, hemp]
    simp

/-- Witness for the amended C4 at `x = "a"`, `y = "b"` on the empty default
store. -/
theorem dedup_amended_witness :
    (((History.New 20 1024).Add "a" 0).2.2.Add "a" 1).2.2.entries.length = 1 ∧
    ((((History.New 20 1024).Add "a" 0).2.2.Add "b" 1).2.2.Add
        "a" 2).2.2.entries.length = 3 ∧
    ((((History.New 20 1024).Add "a" 0).2.2.Add "b" 1).2.2.Add
        "a" 2).2.2.entries.map Entry.content = ["a", "b", "a"] := by
  have hmain := dedup_amended (History.New 20 1024) "a" "b" 0 1 2
    rfl (by decide) (by decide) (by decide) (by decide) (by decide) (by decide)
  exact ⟨hmain.1, (hmain.2 (by decide)).1, (hmain.2 (by decide)).2⟩

/-- Truncating after appending an already-truncated tail is the same as
truncating the full append. -/
theorem take_append_take {α : Type} (n : Nat) (a b : List α) :
    (a ++ b.take n).take n = (a ++ b).take n := by
  rw [List.take_append_eq_append_take, List.take_append_eq_append_take,
      List.take_take, Nat.min_eq_left (Nat.sub_le _ _)]

/-- An admitted `Add` always leaves the truncated prepend, whether or not the
eviction branch fires. -/
theorem add_admitted_entries_take (h : History) (c : String) (now : Nat)
    (hmax : 0 < h.max) (hc : c ≠ "")
    (hb : (c.utf8ByteSize : Int) ≤ h.maxBytes)
    (hf : h.entries.head?.map Entry.content ≠ some c) :
    (h.Add c now).2.2.entries =
      ((⟨h.nextID, c, now⟩ : Entry) :: h.entries).take h.max.toNat ∧
    (h.Add c now).2.2.max = h.max ∧
    (h.Add c now).2.2.maxBytes = h.maxBytes ∧
    (h.Add c now).2.1 = true := by
  rw [add_admitted_eq h c now hc (not_lt.mpr hb) hf]
  refine ⟨?_, rfl, rfl, rfl⟩
  show (if _ then _ else _) = _
  split_ifs with hcond
  · rfl
  · rw [List.take_of_length_le]
    simp only [List.length_cons] at hcond ⊢
    omega

/-- Folding admissible, consecutively distinct captures through `Add` keeps
exactly the most recent `max` of them, MRU first. -/
theorem runAdds_entries : ∀ (cs : List String) (h : History),
    0 < h.max →
    (∀ c ∈ cs, c ≠ "" ∧ (c.utf8ByteSize : Int) ≤ h.maxBytes) →
    cs.Chain' (· ≠ ·) →
    (∀ c, cs.head? = some c → ∀ e, h.entries.head? = some e → c ≠ e.content) →
    h.entries.length ≤ h.max.toNat →
    (h.runAdds cs).entries.map Entry.content =
      (cs.reverse ++ h.entries.map Entry.content).take h.max.toNat ∧
    (h.runAdds cs).max = h.max := by
  intro cs
  induction cs with
  | nil =>
    intro h hmax hadm hchain hhead hlen
    refine ⟨?_, rfl⟩
    show h.entries.map Entry.content = _
    rw [List.reverse_nil, List.nil_append,
        List.take_of_length_le (by simpa using hlen)]
  | cons c rest ih =>
    intro h hmax hadm hchain hhead hlen
    have hf : h.entries.head?.map Entry.content ≠ some c := by
      cases hent : h.entries with
      | nil => simp
      | cons e t =>
        simpa using Ne.symm (hhead c rfl e (by rw [hent]; rfl))
    obtain ⟨hent', hmax', hbytes', _⟩ := add_admitted_entries_take h c 0 hmax
      (hadm c (List.mem_cons_self c rest)).1
      (hadm c (List.mem_cons_self c rest)).2 hf
    have hrun : h.runAdds (c :: rest) = ((h.Add c 0).2.2).runAdds rest := rfl
    have hstep := ih (h.Add c 0).2.2
      (by rw [hmax']; exact hmax)
      (fun c' hc' => by
        rw [hbytes']
        exact hadm c' (List.mem_cons_of_mem c hc'))
      (List.chain'_cons'.mp hchain).2
      (by
        intro c' hc' e he
        rw [hent', List.head?_take, if_neg (by omega)] at he
        have hee : ({ id := h.nextID, content := c, createdAt := 0 } : Entry)
            = e := by simpa using he
        rw [← hee]
        have := (List.chain'_cons'.mp hchain).1 c'
          (by rw [hc']; rfl)
        exact fun hcontra => this hcontra.symm)
      (by
        rw [hent', hmax', List.length_take]
        exact Nat.min_le_left _ _)
    rw [hrun]
    refine ⟨?_, by rw [hstep.2, hmax']⟩
    rw [hstep.1, hmax', hent', List.map_take]
    show _ = ((c :: rest).reverse ++ h.entries.map Entry.content).take _
    rw [List.reverse_cons, List.append_assoc, List.singleton_append,
        show ((⟨h.nextID, c, 0⟩ : Entry) :: h.entries).map Entry.content =
          c :: h.entries.map Entry.content from rfl,
        take_append_take]

/-- A single `Add` never grows the store beyond the bound. -/
theorem add_length_le (h : History) (c : String) (now : Nat)
    (hmax : 0 ≤ h.max) (hlen : (h.entries.length : Int) ≤ h.max) :
    (((h.Add c now).2.2).entries.length : Int) ≤ h.max := by
  unfold History.Add
  split_ifs with h1 h2 h3
  · exact hlen
  · exact hlen
  · exact hlen
  · show (((if _ then _ else _ : List Entry)).length : Int) ≤ _
    split_ifs with hcond
    · simp only [List.length_take, List.length_cons]
      omega
    · simp only [List.length_cons] at hcond ⊢
      omega

/-- C5: adding `maxEntries + k` pairwise-distinct admissible contents to an
empty store leaves exactly `maxEntries` entries — the most recently added
ones, MRU first — and no single `Add` ever pushes the length past the
bound. -/
theorem bounded_mru_eviction (h : History) (cs : List String) (k : Nat)
    (hemp : h.entries = []) (hmax : 0 < h.max)
    (hadm : ∀ c ∈ cs, c ≠ "" ∧ (c.utf8ByteSize : Int) ≤ h.maxBytes)
    (hdist : cs.Pairwise (· ≠ ·))
    (hlen : cs.length = h.max.toNat + k) :
    (h.runAdds cs).entries.length = h.max.toNat ∧
    (h.runAdds cs).entries.map Entry.content = cs.reverse.take h.max.toNat ∧
    (∀ (h' : History) (c : String) (now : Nat), 0 ≤ h'.max →
      (h'.entries.length : Int) ≤ h'.max →
      (((h'.Add c now).2.2).entries.length : Int) ≤ h'.max) := by
  have hmain := runAdds_entries cs h hmax hadm hdist.chain'
    (fun c _ e he => by rw [hemp] at he; exact absurd he (by simp))
    (by rw [hemp]; exact Nat.zero_le _)
  have hmap : (h.runAdds cs).entries.map Entry.content =
      cs.reverse.take h.max.toNat := by
    rw [hmain.1, hemp]
    simp
  refine ⟨?_, hmap, fun h' c now => add_length_le h' c now⟩
  have := congrArg List.length hmap
  rw [List.length_map, List.length_take, List.length_reverse, hlen] at this
  rw [this]
  omega

/-- Witness for C5: `maxEntries = 2`, captures `"a"`, `"b"`, `"c"` in order
leave exactly the two entries `["c", "b"]` (MRU order); one more `Add` on a
full one-slot store stays within its bound. -/
theorem bounded_mru_eviction_witness :
    ((History.New 2 10).runAdds ["a", "b", "c"]).entries.length = 2 ∧
    ((History.New 2 10).runAdds ["a", "b", "c"]).entries.map Entry.content =
      ["c", "b"] ∧
    (((History.mk [⟨1, "a", 0⟩] 1 10 2).Add "b" 0).2.2.entries.length : Int) ≤
      1 := by
  have hmain := bounded_mru_eviction (History.New 2 10) ["a", "b", "c"] 1
    rfl (by decide) (by decide) (by decide) (by decide)
  refine ⟨hmain.1, by rw [hmain.2.1]; rfl,
          hmain.2.2 (History.mk [⟨1, "a", 0⟩] 1 10 2) "b" 0 (by decide)
            (by decide)⟩

/-- Function `wrap64` is the identity on values already in the `int64` range. -/
theorem wrap64_eq_self (x : Int) (hlo : -2 ^ 63 ≤ x) (hhi : x < 2 ^ 63) :
    wrap64 x = x := by
  unfold wrap64
  rw [Int.emod_eq_of_lt (by omega) (by omega)]
  omega

/-- An `Add` either rejects leaving the store untouched, or assigns exactly
`nextID` and advances the counter by one (with `int64` wrap-around). -/
theorem add_result_cases (h : History) (c : String) (now : Nat) :
    ((h.Add c now).2.1 = false ∧ (h.Add c now).2.2 = h) ∨
    ((h.Add c now).2.1 = true ∧ (h.Add c now).1.id = h.nextID ∧
      (h.Add c now).2.2.nextID = wrap64 (h.nextID + 1)) := by
  unfold History.Add
  split_ifs <;> simp

/-- A `Delete` never touches the id counter. -/
theorem delete_nextID (h : History) (id : Int) :
    (h.Delete id).2.nextID = h.nextID := by
  unfold History.Delete
  cases deleteLoop id h.entries <;> rfl

/-- Along any operation sequence from a store whose counter is positive and
cannot overflow, the assigned ids are strictly increasing and all at least
the starting counter. -/
theorem assignedIds_invariant : ∀ (ops : List HOp) (h : History),
    0 < h.nextID → h.nextID + ops.length < 2 ^ 63 →
    (h.assignedIds ops).Chain' (· < ·) ∧
    (∀ i ∈ h.assignedIds ops, h.nextID ≤ i) := by
  intro ops
  induction ops with
  | nil =>
    intro h _ _
    exact ⟨List.chain'_nil, by simp [History.assignedIds]⟩
  | cons op rest ih =>
    intro h hpos hbound
    simp only [List.length_cons] at hbound
    cases op with
    | add c now =>
      rcases add_result_cases h c now with ⟨hflag, hsame⟩ | ⟨hflag, hid, hnid⟩
      · have heq : h.assignedIds (.add c now :: rest) = h.assignedIds rest := by
          simp [History.assignedIds, hflag, hsame]
        rw [heq]
        exact ih h hpos (by push_cast; push_cast at hbound; omega)
      · have heq : h.assignedIds (.add c now :: rest) =
            h.nextID :: (h.Add c now).2.2.assignedIds rest := by
          simp [History.assignedIds, hflag, hid]
        have hnid' : (h.Add c now).2.2.nextID = h.nextID + 1 := by
          rw [hnid]
          exact wrap64_eq_self _ (by omega) (by push_cast at hbound; omega)
        obtain ⟨hch, hlb⟩ := ih (h.Add c now).2.2
          (by rw [hnid']; omega)
          (by rw [hnid']; push_cast at hbound ⊢; omega)
        rw [heq]
        refine ⟨List.chain'_cons'.mpr ⟨fun y hy => ?_, hch⟩, ?_⟩
        · have hmem : y ∈ (h.Add c now).2.2.assignedIds rest :=
            List.mem_of_mem_head? hy
          have := hlb y hmem
          rw [hnid'] at this
          omega
        · intro i hi
          rcases List.mem_cons.mp hi with hi | hi
          · omega
          · have := hlb i hi
            rw [hnid'] at this
            omega
    | delete id =>
      have heq : h.assignedIds (.delete id :: rest) =
          (h.Delete id).2.assignedIds rest := by
        simp only [History.assignedIds, History.step]
      rw [heq]
      have := ih (h.Delete id).2
        (by rw [delete_nextID]; exact hpos)
        (by rw [delete_nextID]; push_cast at hbound ⊢; omega)
      rw [delete_nextID] at this
      exact this
    | clear =>
      have heq : h.assignedIds (.clear :: rest) =
          h.Clear.assignedIds rest := by
        simp only [History.assignedIds, History.step]
      rw [heq]
      have := ih h.Clear
        (by show 0 < h.nextID; exact hpos)
        (by show h.nextID + _ < _; push_cast at hbound ⊢; omega)
      exact this

/-- C7: along any realizable sequence of `Add`/`Delete`/`Clear` calls from a
fresh store, every admitted entry's id is strictly greater than all earlier
assigned ids — no id is ever reassigned, even after `Delete` or `Clear` —
and `Clear` empties the sequence while leaving the id counter alone. -/
theorem id_monotonicity (maxE maxB : Int) (ops : List HOp)
    (hbound : (ops.length : Int) < 2 ^ 62) :
    ((History.New maxE maxB).assignedIds ops).Pairwise (· < ·) ∧
    ((History.New maxE maxB).assignedIds ops).Chain' (· < ·) ∧
    (∀ h : History, h.Clear.entries = [] ∧ h.Clear.nextID = h.nextID) := by
  have hinv := assignedIds_invariant ops (History.New maxE maxB)
    (by show (0 : Int) < 1; omega)
    (by show (1 : Int) + ops.length < 2 ^ 63; omega)
  exact ⟨List.chain'_iff_pairwise.mp hinv.1, hinv.1, fun h => ⟨rfl, rfl⟩⟩

/-- Witness for C7: a concrete sequence with a rejected duplicate, a delete
and a clear assigns ids `[1, 2, 3]`, strictly increasing. -/
theorem id_monotonicity_witness :
    ((History.New 20 100).assignedIds
      [.add "a" 0, .add "a" 1, .delete 1, .add "b" 2, .clear,
        .add "c" 3]).Pairwise (· < ·) ∧
    (History.New 20 100).assignedIds
      [.add "a" 0, .add "a" 1, .delete 1, .add "b" 2, .clear, .add "c" 3] =
      [1, 2, 3] :=
  ⟨(id_monotonicity 20 100 _ (by decide)).1, by decide⟩

end Smartpasta
